import Mathlib

/-!
Verification of the name-based chain-classification and ranking core of the
local-coffee service (`src/app/api/coffee/route.ts`).

The TypeScript source is shallowly embedded: strings are Lean `String`s
(lists of characters), the JavaScript regular expressions used by the
classifier are modelled as explicit scanners over character lists with
ECMAScript word-boundary semantics, JavaScript numbers appearing in the
name-processing pipeline are modelled exactly (`ℚ`/`ℤ`), and the
floating-point haversine computation is modelled over `ℝ`.
-/

namespace Coffee

/-! ### Character classes

`route.ts` processes names with the regexes `[^a-z0-9\s]`, `\s+`, `\b`,
`\d`, and `String.prototype.toLowerCase`/`trim`.  We model the character
classes over code points.  `isJsSpace` models ECMAScript `\s` on the code
points that can survive here; any further Unicode whitespace is mapped to a
plain space by the `[^a-z0-9\s]` replacement before it could matter, so the
model composes to the same normalized output. -/

def isAsciiLower (c : Char) : Bool := 97 ≤ c.toNat && c.toNat ≤ 122

def isDigitC (c : Char) : Bool := 48 ≤ c.toNat && c.toNat ≤ 57

def isJsSpace (c : Char) : Bool :=
  c == ' ' || c == '\t' || c == '\n' || c == '\r' || c == '\x0b' || c == '\x0c'

/-- ECMAScript word character (`\w`), used by the `\b` boundary assertions. -/
def isWordChar (c : Char) : Bool :=
  isAsciiLower c || (65 ≤ c.toNat && c.toNat ≤ 90) || isDigitC c || c.toNat = 95

/-- Model of `String.prototype.toLowerCase` at ASCII fidelity (the only case-mapping
the pipeline can observe: every character that is not `[a-z0-9\s]` after
lowering is immediately replaced by a space). -/
def jsLowerChar (c : Char) : Char :=
  if 65 ≤ c.toNat && c.toNat ≤ 90 then Char.ofNat (c.toNat + 32) else c

/-- One step of `replace(/[^a-z0-9\s]/g, " ")`. -/
def keepChar (c : Char) : Char :=
  if isAsciiLower c || isDigitC c || isJsSpace c then c else ' '

/-- One `foldr` step of `replace(/\s+/g, " ")`: a maximal run of whitespace
becomes a single space. -/
def collapseStep (c : Char) (acc : List Char) : List Char :=
  if isJsSpace c then
    if acc.head? = some ' ' then acc else ' ' :: acc
  else c :: acc

/-- Composed whitespace collapse, `replace(/\s+/g, " ")`. -/
def collapseWS (l : List Char) : List Char := l.foldr collapseStep []

/-- Model of `String.prototype.trim`: drop trailing then leading whitespace. -/
def trimWS (l : List Char) : List Char :=
  ((l.reverse.dropWhile isJsSpace).reverse).dropWhile isJsSpace

/-- Embedding of the TypeScript:
```ts
function normalize(s: string): string {
  return s
    .toLowerCase()
    .replace(/[^a-z0-9\s]/g, " ")
    .replace(/\s+/g, " ")
    .trim();
}
```
-/
def normalize (s : String) : String :=
  String.mk (trimWS (collapseWS ((s.data.map jsLowerChar).map keepChar)))

/-- The list `KNOWN_CHAINS` from `route.ts`. -/
def KNOWN_CHAINS : List String :=
  ["starbucks", "dunkin", "peet", "tim hortons", "caribou", "dutch bros",
   "scooter", "the human bean", "biggby", "gloria jean",
   "coffee bean & tea leaf", "the coffee bean", "7-eleven", "mcdonald",
   "panera", "einstein bros", "costa", "pret a manger", "greggs",
   "dunn brothers", "dunn brothers coffee", "holiday stationstores",
   "holiday station store", "holiday"]

/-- The list `COFFEE_HINTS` from `route.ts`. -/
def COFFEE_HINTS : List String :=
  ["coffee", "cafe", "espresso", "roaster", "roasters", "roastery",
   "roasting", "latte", "pour over", "pour-over", "cold brew", "cold-brew"]

/-- Whether `needle` occurs as a contiguous sublist of the second list. -/
def infixOf (needle : List Char) : List Char → Bool
  | [] => needle.isEmpty
  | c :: t => needle.isPrefixOf (c :: t) || infixOf needle t

/-- Model of `haystack.includes(needle)` — substring containment. -/
def strIncludes (hay needle : String) : Bool :=
  infixOf needle.data hay.data

/-! ### Regex models for the structural heuristics

`isChainName` tests `/\b#\s?\d{2,}\b/`, `/\b(store|location)\b/` and
`/\b\d{2,}\b/` against the normalized name.  We model `regex.test` as
"some position matches", with ECMAScript `\b`: a boundary holds between a
word character and a non-word character (or a string edge next to a word
character). -/

/-- After a greedy `\d{2,}` starting here: the maximal digit run must have
length at least 2 and be followed by a non-word character or the end
(`\b` after a digit). -/
def digitRunOk (l : List Char) : Bool :=
  let run := l.takeWhile isDigitC
  decide (2 ≤ run.length) &&
    (match l.drop run.length with
     | [] => true
     | c :: _ => !isWordChar c)

/-- After a `#`: `\s?` then `\d{2,}\b`.  (`\s?` deterministically consumes
one whitespace character when present: if it is present and not consumed,
the following `\d` fails anyway.) -/
def hashTailOk (l : List Char) : Bool :=
  match l with
  | c :: rest => if isJsSpace c then digitRunOk rest else digitRunOk l
  | [] => false

/-- Scan for `/\b#\s?\d{2,}\b/`.  `prev` is the character before the
scan position; `\b` before `#` (a non-word character) requires the previous
character to be a word character, so a match at the string start is
impossible. -/
def hashScan (prev : Option Char) (l : List Char) : Bool :=
  match l with
  | [] => false
  | c :: rest =>
    (decide (c = '#') &&
      (match prev with
       | some p => isWordChar p
       | none => false) &&
      hashTailOk rest) ||
    hashScan (some c) rest

/-- Full test of `/\b#\s?\d{2,}\b/` on a character list. -/
def hashNumMatch (l : List Char) : Bool := hashScan none l

/-- Boundary before a word character: start of string or a non-word
character. -/
def boundaryBefore (prev : Option Char) : Bool :=
  match prev with
  | none => true
  | some p => !isWordChar p

/-- The word `w` (made of word characters) matches here with a trailing
`\b`. -/
def wordHere (w l : List Char) : Bool :=
  w.isPrefixOf l &&
    (match l.drop w.length with
     | [] => true
     | c :: _ => !isWordChar c)

/-- Scan for `/\bW\b/` where `W` is a fixed word. -/
def wordScan (w : List Char) (prev : Option Char) (l : List Char) : Bool :=
  match l with
  | [] => false
  | c :: rest => (boundaryBefore prev && wordHere w l) || wordScan w (some c) rest

/-- Model of `/\bW\b/.test(s)` for a fixed word `W`. -/
def hasWord (w s : String) : Bool := wordScan w.data none s.data

/-- Scan for `/\b\d{2,}\b/`. -/
def digitsScan (prev : Option Char) (l : List Char) : Bool :=
  match l with
  | [] => false
  | c :: rest => (boundaryBefore prev && digitRunOk l) || digitsScan (some c) rest

/-- Model of `/\b\d{2,}\b/.test(s)`. -/
def hasStandaloneNumber (s : String) : Bool := digitsScan none s.data

/-- The brand-list test of `isChainName`:
`KNOWN_CHAINS.some((c) => n.includes(normalize(c)))` on an already
normalized `n`. -/
def brandHit (n : String) : Bool :=
  KNOWN_CHAINS.any (fun c => strIncludes n (normalize c))

/-- The ambiguous-brand override condition of `isChainName`: the normalized
name contains `"holiday"` but none of the corroborating substrings. -/
def holidayNoCorroboration (n : String) : Bool :=
  strIncludes n "holiday" &&
    !(strIncludes n "station" || strIncludes n "store" || strIncludes n "gas" ||
      strIncludes n "stationstores")

/-- Embedding of the TypeScript:
```ts
function isChainName(name: string): boolean {
  const n = normalize(name);
  if (KNOWN_CHAINS.some((c) => n.includes(normalize(c)))) {
    if (n.includes("holiday") &&
        !(n.includes("station") || n.includes("store") || n.includes("gas") ||
          n.includes("stationstores"))) {
      return false;
    }
    return true;
  }
  if (/\b#\s?\d{2,}\b/.test(n)) return true;
  if (/\b(store|location)\b/.test(n) && /\b\d{2,}\b/.test(n)) return true;
  return false;
}
```
-/
def isChainName (name : String) : Bool :=
  let n := normalize name
  if brandHit n then
    if holidayNoCorroboration n then false else true
  else if hashNumMatch n.data then true
  else if (hasWord "store" n || hasWord "location" n) && hasStandaloneNumber n then true
  else false

/-- Embedding of the TypeScript:
```ts
function looksLikeCoffeePlace(name: string): boolean {
  const n = normalize(name);
  return COFFEE_HINTS.some((w) => n.includes(normalize(w)));
}
```
-/
def looksLikeCoffeePlace (name : String) : Bool :=
  COFFEE_HINTS.any (fun w => strIncludes (normalize name) (normalize w))

/-! ### Distance calculator

`haversineMeters` from `route.ts`, modelled over `ℝ` (the spec describes
the exact great-circle mathematics; floating-point rounding of the JS
`number` type is out of scope of the claims). -/

/-- Model of `const toRad = (v) => (v * Math.PI) / 180`. -/
noncomputable def toRad (v : ℝ) : ℝ := v * Real.pi / 180

/-- Embedding of the TypeScript:
```ts
function haversineMeters(lat1, lon1, lat2, lon2) {
  const R = 6371000;
  const dLat = toRad(lat2 - lat1);
  const dLon = toRad(lon2 - lon1);
  const a = Math.sin(dLat / 2) ** 2 +
    Math.cos(toRad(lat1)) * Math.cos(toRad(lat2)) * Math.sin(dLon / 2) ** 2;
  return 2 * R * Math.asin(Math.sqrt(a));
}
```
(`Math.asin` on arguments above 1 returns NaN in JS; this cannot happen in
the real-valued model where `a ≤ 1` whenever it is reached, and Mathlib's
`Real.arcsin` clamps, which agrees on the reachable domain.) -/
noncomputable def haversineMeters (lat1 lon1 lat2 lon2 : ℝ) : ℝ :=
  let R : ℝ := 6371000
  let dLat := toRad (lat2 - lat1)
  let dLon := toRad (lon2 - lon1)
  let a := Real.sin (dLat / 2) ^ 2 +
    Real.cos (toRad lat1) * Real.cos (toRad lat2) * Real.sin (dLon / 2) ^ 2
  2 * R * Real.arcsin (Real.sqrt a)

/-- Model of `Math.round` (round half up towards +∞), applied to the haversine
distance before it is stored on an item. -/
noncomputable def jsRound (x : ℝ) : ℤ := ⌊x + 1 / 2⌋

/-! ### Data model (`PlaceResult`, `CoffeeItem`) -/

/-- The `geometry.location` field of a raw Places result. -/
structure Location where
  lat : ℝ
  lng : ℝ

/-- The `geometry` field of a raw Places result. -/
structure Geometry where
  location : Option Location := none

/-- The `opening_hours` field of a raw Places result. -/
structure OpeningHours where
  open_now : Option Bool := none

/-- The type `PlaceResult` from `route.ts` (raw upstream record).  Optional JS
fields become `Option`; `rating` is a JS number (modelled `ℚ`),
`user_ratings_total` an integer. -/
structure PlaceResult where
  place_id : String
  name : String
  rating : Option ℚ := none
  user_ratings_total : Option ℤ := none
  vicinity : Option String := none
  formatted_address : Option String := none
  geometry : Option Geometry := none
  opening_hours : Option OpeningHours := none

/-- The type `CoffeeItem` from `route.ts` (caller-facing result record). -/
structure CoffeeItem where
  placeId : String
  name : String
  rating : Option ℚ
  ratingsTotal : Option ℤ
  address : Option String
  openNow : Option Bool
  lat : Option ℝ
  lng : Option ℝ
  distanceMeters : Option ℤ
  mapsUrl : String

/-- Embedding of the TypeScript:
```ts
function mapsDeepLinkFromPlaceId(placeId) {
  const url = new URL("https://www.google.com/maps/search/");
  url.searchParams.set("api", "1");
  url.searchParams.set("query", "coffee");
  url.searchParams.set("query_place_id", placeId);
  return url.toString();
}
```
(The `URL` builder serializes the three query parameters in insertion
order; percent-escaping of the opaque id is not modelled — no claim
depends on the link format.) -/
def mapsDeepLinkFromPlaceId (placeId : String) : String :=
  "https://www.google.com/maps/search/?api=1&query=coffee&query_place_id=" ++ placeId

/-! ### The GET pipeline (`route.ts` lines 233–278) -/

/-- De-duplication by `place_id` (insertion-ordered `Map` + `has` check):
keep the first occurrence of each id, dropping entries whose `place_id` is
falsy (the empty string). -/
def dedupGo (seen : List String) : List PlaceResult → List PlaceResult
  | [] => []
  | p :: rest =>
    if p.place_id ≠ "" ∧ p.place_id ∉ seen then
      p :: dedupGo (p.place_id :: seen) rest
    else
      dedupGo seen rest

/-- Embedding of the TypeScript:
```ts
const uniqueById = new Map<string, PlaceResult>();
for (const p of rawPages) {
  if (p?.place_id && !uniqueById.has(p.place_id)) uniqueById.set(p.place_id, p);
}
const raw = Array.from(uniqueById.values());
```
-/
def dedupById (rawPages : List PlaceResult) : List PlaceResult :=
  dedupGo [] rawPages

/-- Embedding of the TypeScript:
```ts
const filtered = raw.filter((p) => {
  if (!p.name) return false;
  if (isChainName(p.name)) return false;
  if (!looksLikeCoffeePlace(p.name)) return false;
  return true;
});
```
-/
def filterPlaces (raw : List PlaceResult) : List PlaceResult :=
  raw.filter (fun p =>
    !(p.name == "") && !isChainName p.name && looksLikeCoffeePlace p.name)

/-- The `filtered.map((p) => ...)` body building a `CoffeeItem` from a
surviving place, for origin `(lat, lng)`. -/
noncomputable def toItem (lat lng : ℝ) (p : PlaceResult) : CoffeeItem :=
  let loc := p.geometry.bind (fun g => g.location)
  { placeId := p.place_id
    name := p.name
    rating := p.rating
    ratingsTotal := p.user_ratings_total
    address :=
      match p.vicinity with
      | some v => some v
      | none => p.formatted_address
    openNow := p.opening_hours.bind (fun o => o.open_now)
    lat := loc.map (fun l => l.lat)
    lng := loc.map (fun l => l.lng)
    distanceMeters :=
      match loc with
      | some l => some (jsRound (haversineMeters lat lng l.lat l.lng))
      | none => none
    mapsUrl := mapsDeepLinkFromPlaceId p.place_id }

/-- The sort key of the default ordering:
`a.distanceMeters ?? 9e15` (`9e15` is the sentinel for "no distance"). -/
def sortKey (i : CoffeeItem) : ℤ := i.distanceMeters.getD 9000000000000000

/-- Stable insertion of `x` into `l` by `sortKey` (an element already in
the list keeps its place when the keys tie; `x` — which originates earlier
in the input than everything in `l` — goes before equal keys). -/
def insertItem (x : CoffeeItem) : List CoffeeItem → List CoffeeItem
  | [] => [x]
  | y :: r => if sortKey x ≤ sortKey y then x :: y :: r else y :: insertItem x r

/-- Model of `items.sort((a, b) => (a.distanceMeters ?? 9e15) - (b.distanceMeters ?? 9e15))`:
JS `Array.prototype.sort` is required to be stable, so it is modelled as a
stable insertion sort on the numeric key. -/
def sortItems (l : List CoffeeItem) : List CoffeeItem :=
  l.foldr insertItem []

/-- The items produced for one request with validated origin `(lat, lng)`
and raw pages `rawPages`: de-dupe, filter, map, sort. -/
noncomputable def pipelineItems (lat lng : ℝ) (rawPages : List PlaceResult) : List CoffeeItem :=
  sortItems ((filterPlaces (dedupById rawPages)).map (toItem lat lng))

/-- Embedding of the TypeScript:
```ts
return NextResponse.json({
  radiusMeters,
  returned: items.length,
  items: items.slice(0, 60),
});
```
modelled as the pair `(returned, items)` of the JSON body (the echoed
radius is independent of the item pipeline). -/
noncomputable def apiResult (lat lng : ℝ) (rawPages : List PlaceResult) :
    ℕ × List CoffeeItem :=
  let items := pipelineItems lat lng rawPages
  (items.length, items.take 60)

/-! ### Request-boundary validation (`route.ts` lines 198–214)

The handler reads `lat`/`lng` from the query string (`null` when the
parameter is absent), rejects falsy values (`null` or the empty string)
with 400, converts with `Number(...)`, and rejects non-finite conversions
with 400. -/

/-- Truthiness of a `searchParams.get(...)` result: falsy iff `null` or `""`. -/
def jsFalsy (s : Option String) : Bool :=
  match s with
  | none => true
  | some v => v == ""

/-- Value of a list of decimal digits. -/
def digitsVal (l : List Char) : ℕ :=
  l.foldl (fun acc c => 10 * acc + (c.toNat - 48)) 0

/-- Parse a nonempty run of decimal digits. -/
def parseDecDigits (l : List Char) : Option (ℕ × List Char) :=
  let run := l.takeWhile isDigitC
  if run.isEmpty then none else some (digitsVal run, l.drop run.length)

/-- Parse the unsigned decimal part of a `StrDecimalLiteral`:
`digits [. digits] [e[±]digits]` or `. digits [e[±]digits]`. -/
def parseUnsignedDec (l : List Char) : Option ℚ :=
  let core : Option (ℚ × List Char) :=
    match parseDecDigits l with
    | some (ip, rest) =>
      match rest with
      | '.' :: rest2 =>
        let frun := rest2.takeWhile isDigitC
        some ((ip : ℚ) + (digitsVal frun : ℚ) / (10 : ℚ) ^ frun.length,
              rest2.drop frun.length)
      | _ => some ((ip : ℚ), rest)
    | none =>
      match l with
      | '.' :: rest2 =>
        let frun := rest2.takeWhile isDigitC
        if frun.isEmpty then none
        else some ((digitsVal frun : ℚ) / (10 : ℚ) ^ frun.length,
                   rest2.drop frun.length)
      | _ => none
  match core with
  | none => none
  | some (v, rest) =>
    match rest with
    | [] => some v
    | e :: rest2 =>
      if e = 'e' ∨ e = 'E' then
        let signedExp : Option (Bool × List Char) :=
          match rest2 with
          | '+' :: r => some (true, r)
          | '-' :: r => some (false, r)
          | r => some (true, r)
        match signedExp with
        | some (pos, r) =>
          match parseDecDigits r with
          | some (ex, []) =>
            some (if pos then v * (10 : ℚ) ^ ex else v / (10 : ℚ) ^ ex)
          | _ => none
        | none => none
      else none

/-- Value of a run of hexadecimal digits, if nonempty and all valid. -/
def parseRadixDigits (radix : ℕ) (l : List Char) : Option ℕ :=
  let digVal : Char → Option ℕ := fun c =>
    if isDigitC c then some (c.toNat - 48)
    else if 97 ≤ c.toNat ∧ c.toNat ≤ 102 then some (c.toNat - 87)
    else if 65 ≤ c.toNat ∧ c.toNat ≤ 70 then some (c.toNat - 55)
    else none
  match l with
  | [] => none
  | _ =>
    l.foldl (fun acc c =>
      match acc, digVal c with
      | some a, some d => if d < radix then some (radix * a + d) else none
      | _, _ => none) (some 0)

/-- ECMAScript `StrWhiteSpace` (`WhiteSpace` union `LineTerminator`),
stripped around a `StringNumericLiteral` by `Number(string)`: the ASCII
whitespace characters plus NBSP, the BOM, the Unicode space separators,
and the line/paragraph separators. -/
def isJsStrWhiteSpace (c : Char) : Bool :=
  isJsSpace c || c == '\u00A0' || c == '\uFEFF' || c == '\u1680' ||
    ('\u2000' ≤ c && c ≤ '\u200A') || c == '\u2028' || c == '\u2029' ||
    c == '\u202F' || c == '\u205F' || c == '\u3000'

/-- Whether an exact parsed value overflows an IEEE-754 double: under
round-to-nearest (ties to even), a magnitude of at least
`2^1024 - 2^970` — the midpoint above the largest finite double
`2^1024 - 2^971` — rounds to `Infinity`, so `Number.isFinite` fails;
anything strictly below it rounds to a finite double. -/
def overflowsDouble (q : ℚ) : Bool :=
  decide ((2 ^ 1024 - 2 ^ 970 : ℕ) * q.den ≤ q.num.natAbs)

/-- ECMAScript `Number(string)` restricted to finite outcomes, modelling
the `StringNumericLiteral` grammar: surrounding `StrWhiteSpace` is
ignored, the empty remainder is `0`, `Infinity` and unparsable text are
non-finite / NaN (`none`), signs apply to decimal literals only,
`0x`/`0o`/`0b` introduce unsigned radix literals, and an exact value
whose magnitude reaches the double-overflow bound rounds to `Infinity`
and is therefore not finite.  (The surviving finite value is kept as the
exact rational; the program's rounding of it to the nearest finite double
does not affect finiteness, which is all the validation inspects.) -/
def jsNumberFinite (s : String) : Option ℚ :=
  let l := ((s.data.dropWhile isJsStrWhiteSpace).reverse.dropWhile isJsStrWhiteSpace).reverse
  let raw : Option ℚ :=
    match l with
    | [] => some 0
    | '0' :: 'x' :: r => (parseRadixDigits 16 r).map (fun n => (n : ℚ))
    | '0' :: 'X' :: r => (parseRadixDigits 16 r).map (fun n => (n : ℚ))
    | '0' :: 'o' :: r => (parseRadixDigits 8 r).map (fun n => (n : ℚ))
    | '0' :: 'O' :: r => (parseRadixDigits 8 r).map (fun n => (n : ℚ))
    | '0' :: 'b' :: r => (parseRadixDigits 2 r).map (fun n => (n : ℚ))
    | '0' :: 'B' :: r => (parseRadixDigits 2 r).map (fun n => (n : ℚ))
    | '+' :: r => if r = "Infinity".data then none else parseUnsignedDec r
    | '-' :: r =>
      if r = "Infinity".data then none else (parseUnsignedDec r).map (fun q => -q)
    | r => if r = "Infinity".data then none else parseUnsignedDec r
  raw.bind (fun q => if overflowsDouble q then none else some q)

/-- Outcome of the handler up to input validation (the rate-limit branch
and the Places fetch are external collaborators). -/
inductive GetOutcome where
  | serverError : GetOutcome
  | badRequest : GetOutcome
  | runSearch (lat lng : ℚ) : GetOutcome
deriving DecidableEq

/-- Embedding of the TypeScript:
```ts
if (!process.env.GOOGLE_PLACES_API_KEY) {
  return NextResponse.json({ error: "Missing GOOGLE_PLACES_API_KEY" }, { status: 500 });
}
if (!latStr || !lngStr) {
  return NextResponse.json({ error: "lat and lng are required" }, { status: 400 });
}
const lat = Number(latStr);
const lng = Number(lngStr);
if (!Number.isFinite(lat) || !Number.isFinite(lng)) {
  return NextResponse.json({ error: "lat/lng must be valid numbers" }, { status: 400 });
}
```
(modelled after the rate-limit gate; `hasKey` is the truthiness of the API
key environment variable). -/
def handleParams (hasKey : Bool) (latStr lngStr : Option String) : GetOutcome :=
  if !hasKey then .serverError
  else if jsFalsy latStr || jsFalsy lngStr then .badRequest
  else
    match jsNumberFinite (latStr.getD ""), jsNumberFinite (lngStr.getD "") with
    | some lat, some lng => .runSearch lat lng
    | _, _ => .badRequest

/-! ### Composite ranking strategy (spec §4.5)

No composite strategy exists anywhere in the repository's code — the route
sorts by distance only.  The definitions below are therefore taken from
the specification's own words. -/

/-- Modelled from the spec: the composite strategy's distance tiers.
"bucket results into four distance tiers with boundaries at 500 m, 1200 m,
2500 m (tier 0: <500m, tier 1: <1200m, tier 2: <2500m, tier 3: ≥2500m or
unknown)". -/
def tierOf (d : Option ℤ) : ℕ :=
  match d with
  | some m => if m < 500 then 0 else if m < 1200 then 1 else if m < 2500 then 2 else 3
  | none => 3

/-- Modelled from the spec: the composite strategy's quality score
"`2 × rating + log10(ratingsCount + 1)` (missing rating/ratingsCount
treated as 0)". -/
noncomputable def qualityScore (rating : Option ℚ) (ratingsCount : Option ℤ) : ℝ :=
  2 * ((rating.getD 0 : ℚ) : ℝ) + Real.logb 10 (((ratingsCount.getD 0 : ℤ) : ℝ) + 1)

/-- Modelled from the spec: `a` ranks above `b` under the composite
strategy — lower tier first; within a tier higher quality score first;
remaining ties by the distance key ascending (unknown distance last). -/
def compositeAbove (a b : CoffeeItem) : Prop :=
  tierOf a.distanceMeters < tierOf b.distanceMeters ∨
    (tierOf a.distanceMeters = tierOf b.distanceMeters ∧
      (qualityScore b.rating b.ratingsTotal < qualityScore a.rating a.ratingsTotal ∨
        (qualityScore a.rating a.ratingsTotal = qualityScore b.rating b.ratingsTotal ∧
          sortKey a < sortKey b)))

/-! ### Helper predicates for the normalizer's output -/

/-- Characters that may appear in a normalized name: lowercase ASCII
letters, digits, and the plain space. -/
def goodChar (c : Char) : Bool := isAsciiLower c || isDigitC c || c == ' '

/-- Characters that may survive the `[^a-z0-9\s]` replacement: lowercase
ASCII letters, digits, and whitespace. -/
def midChar (c : Char) : Bool := isAsciiLower c || isDigitC c || isJsSpace c

/-- Two adjacent characters are not both spaces ("single interior
spaces"). -/
def spacedApart (a b : Char) : Prop := ¬(a = ' ' ∧ b = ' ')

/-! ### Sample inputs (used to exercise the theorems on concrete data) -/

/-- A ranked item carrying only an id, a distance and a rating. -/
def mkItem (pid : String) (d : Option ℤ) (r : Option ℚ) : CoffeeItem :=
  { placeId := pid, name := pid, rating := r, ratingsTotal := none, address := none,
    openNow := none, lat := none, lng := none, distanceMeters := d, mapsUrl := pid }

def c3Near : CoffeeItem := mkItem "near" (some 400) (some 3)

def c3Far : CoffeeItem := mkItem "far" (some 600) (some 5)

def c4Raw61 : List PlaceResult :=
  (List.range 61).map (fun i => { place_id := "p" ++ toString i, name := "cafe" })

def c4RawSmall : List PlaceResult := [{ place_id := "q", name := "espresso bar" }]

def c6Sample : List CoffeeItem :=
  [mkItem "a" (some 500) none, mkItem "b" none none,
   mkItem "c" (some 200) none, mkItem "d" (some 500) none]

def c8Sample : List PlaceResult :=
  [{ place_id := "x", name := "First Cafe" }, { place_id := "x", name := "Second Cafe" }]

def c10Raw : List PlaceResult := [{ place_id := "a", name := "cafe" }]

noncomputable def c10Item : CoffeeItem := toItem 0 0 { place_id := "a", name := "cafe" }

/-! ### Lemmas: the normalizer -/

theorem midChar_keepChar (c : Char) : midChar (keepChar c) = true := by
  unfold keepChar
  split
  next h => simpa [midChar] using h
  next => decide

theorem space_of_goodChar_isJsSpace (c : Char) (hg : goodChar c = true)
    (hs : isJsSpace c = true) : c = ' ' := by
  simp only [isJsSpace, Bool.or_eq_true, beq_iff_eq] at hs
  rcases hs with ((((h | h) | h) | h) | h) | h
  · exact h
  all_goals (subst h; exact absurd hg (by decide))

theorem not_isJsSpace_of_goodChar (c : Char) (hg : goodChar c = true)
    (hne : c ≠ ' ') : isJsSpace c = false := by
  by_cases h : isJsSpace c = true
  · exact absurd (space_of_goodChar_isJsSpace c hg h) hne
  · rwa [Bool.not_eq_true] at h

theorem goodChar_of_midChar (c : Char) (h : midChar c = true)
    (hs : isJsSpace c = false) : goodChar c = true := by
  unfold goodChar
  unfold midChar at h
  rw [hs, Bool.or_false] at h
  rw [h, Bool.true_or]

theorem collapseStep_inv (c : Char) (acc : List Char) (hc : midChar c = true)
    (h1 : ∀ x ∈ acc, goodChar x = true) (h2 : acc.Chain' spacedApart) :
    (∀ x ∈ collapseStep c acc, goodChar x = true) ∧
      (collapseStep c acc).Chain' spacedApart := by
  unfold collapseStep
  by_cases hs : isJsSpace c = true
  · rw [if_pos hs]
    by_cases hh : acc.head? = some ' '
    · rw [if_pos hh]; exact ⟨h1, h2⟩
    · rw [if_neg hh]
      refine ⟨?_, ?_⟩
      · intro x hx
        rcases List.mem_cons.mp hx with rfl | hx
        · decide
        · exact h1 x hx
      · rw [List.chain'_cons']
        refine ⟨?_, h2⟩
        intro y hy hcon
        apply hh
        rcases acc with _ | ⟨a, t⟩
        · simp at hy
        · simp only [List.head?_cons, Option.mem_def, Option.some.injEq] at hy
          subst hy
          rw [List.head?_cons, hcon.2]
  · rw [if_neg hs]
    have hcf : isJsSpace c = false := by rwa [Bool.not_eq_true] at hs
    refine ⟨?_, ?_⟩
    · intro x hx
      rcases List.mem_cons.mp hx with rfl | hx
      · exact goodChar_of_midChar x hc hcf
      · exact h1 x hx
    · rw [List.chain'_cons']
      refine ⟨?_, h2⟩
      intro y _ hcon
      rw [hcon.1] at hcf
      exact absurd hcf (by decide)

theorem collapseWS_inv (l : List Char) (hl : ∀ c ∈ l, midChar c = true) :
    (∀ x ∈ collapseWS l, goodChar x = true) ∧ (collapseWS l).Chain' spacedApart := by
  induction l with
  | nil =>
    refine ⟨?_, List.chain'_nil⟩
    intro x hx
    simp [collapseWS] at hx
  | cons c t ih =>
    have ht : ∀ x ∈ t, midChar x = true := fun x hx => hl x (List.mem_cons_of_mem _ hx)
    have hi := ih ht
    exact collapseStep_inv c (collapseWS t) (hl c (List.mem_cons_self _ _)) hi.1 hi.2

theorem head?_dropWhile_false (p : Char → Bool) (l : List Char) (c : Char)
    (h : (l.dropWhile p).head? = some c) : p c = false := by
  induction l with
  | nil => simp [List.dropWhile] at h
  | cons a t ih =>
    rw [List.dropWhile_cons] at h
    by_cases hp : p a = true
    · rw [if_pos hp] at h; exact ih h
    · rw [if_neg hp] at h
      simp only [List.head?_cons, Option.some.injEq] at h
      subst h
      rwa [Bool.not_eq_true] at hp

theorem dropWhile_noop (p : Char → Bool) (l : List Char)
    (h : ∀ c, l.head? = some c → p c = false) : l.dropWhile p = l := by
  rcases l with _ | ⟨a, t⟩
  · rfl
  · have ha : p a = false := h a rfl
    simp [List.dropWhile_cons, ha]

theorem mem_trimWS (l : List Char) (x : Char) (hx : x ∈ trimWS l) : x ∈ l := by
  unfold trimWS at hx
  have h1 := (List.dropWhile_sublist isJsSpace
    (l := (l.reverse.dropWhile isJsSpace).reverse)).mem hx
  rw [List.mem_reverse] at h1
  have h2 := (List.dropWhile_sublist isJsSpace (l := l.reverse)).mem h1
  rwa [List.mem_reverse] at h2

theorem spacedApart_flip (a b : Char) (h : spacedApart a b) : flip spacedApart a b := by
  intro hcon
  exact h ⟨hcon.2, hcon.1⟩

theorem trimWS_chain (l : List Char) (h : l.Chain' spacedApart) :
    (trimWS l).Chain' spacedApart := by
  unfold trimWS
  have h1 : l.reverse.Chain' (flip spacedApart) := by
    rw [List.chain'_reverse]
    exact h.imp (fun a b hab => hab)
  have h2 : (l.reverse.dropWhile isJsSpace).Chain' (flip spacedApart) :=
    h1.suffix (List.dropWhile_suffix _)
  have h3 : ((l.reverse.dropWhile isJsSpace).reverse).Chain' spacedApart := by
    rw [List.chain'_reverse]
    exact h2
  exact h3.suffix (List.dropWhile_suffix _)

theorem head?_trimWS_not_space (l : List Char) (c : Char)
    (h : (trimWS l).head? = some c) : isJsSpace c = false := by
  unfold trimWS at h
  exact head?_dropWhile_false _ _ _ h

theorem getLast?_of_suffix {l1 l2 : List Char} (h : l1 <:+ l2) {c : Char}
    (hc : l1.getLast? = some c) : l2.getLast? = some c := by
  obtain ⟨t, rfl⟩ := h
  rw [List.getLast?_append, hc]
  rfl

theorem getLast?_trimWS_not_space (l : List Char) (c : Char)
    (h : (trimWS l).getLast? = some c) : isJsSpace c = false := by
  unfold trimWS at h
  have h2 := getLast?_of_suffix (List.dropWhile_suffix isJsSpace) h
  rw [List.getLast?_reverse] at h2
  exact head?_dropWhile_false _ _ _ h2

/-- All characters entering the whitespace-collapse step are lowercase,
digits or whitespace. -/
theorem normalize_mid (s : String) :
    ∀ x ∈ (s.data.map jsLowerChar).map keepChar, midChar x = true := by
  intro x hx
  rcases List.mem_map.mp hx with ⟨y, _, rfl⟩
  exact midChar_keepChar y

theorem normalize_chars (s : String) : ∀ c ∈ (normalize s).data, goodChar c = true := by
  intro c hc
  exact (collapseWS_inv _ (normalize_mid s)).1 c (mem_trimWS _ c hc)

theorem normalize_chain (s : String) : (normalize s).data.Chain' spacedApart :=
  trimWS_chain _ (collapseWS_inv _ (normalize_mid s)).2

theorem normalize_head_ne_space (s : String) (c : Char)
    (h : (normalize s).data.head? = some c) : c ≠ ' ' := by
  intro hc
  subst hc
  have := head?_trimWS_not_space _ _ h
  exact absurd this (by decide)

theorem normalize_last_ne_space (s : String) (c : Char)
    (h : (normalize s).data.getLast? = some c) : c ≠ ' ' := by
  intro hc
  subst hc
  have := getLast?_trimWS_not_space _ _ h
  exact absurd this (by decide)

/-! ### Lemmas: idempotence of the normalizer -/

theorem jsLowerChar_fixed (c : Char) (h : goodChar c = true) : jsLowerChar c = c := by
  have hneg : ¬((65 ≤ c.toNat && c.toNat ≤ 90) = true) := by
    intro hcon
    simp only [Bool.and_eq_true, decide_eq_true_eq] at hcon
    simp only [goodChar, Bool.or_eq_true, beq_iff_eq] at h
    rcases h with (h | h) | h
    · simp only [isAsciiLower, Bool.and_eq_true, decide_eq_true_eq] at h; omega
    · simp only [isDigitC, Bool.and_eq_true, decide_eq_true_eq] at h; omega
    · subst h; exact absurd hcon (by decide)
  unfold jsLowerChar
  rw [if_neg hneg]

theorem keepChar_fixed (c : Char) (h : goodChar c = true) : keepChar c = c := by
  have hpos : (isAsciiLower c || isDigitC c || isJsSpace c) = true := by
    simp only [goodChar, Bool.or_eq_true, beq_iff_eq] at h
    rcases h with (h | h) | h
    · simp [h]
    · simp [h]
    · subst h; decide
  unfold keepChar
  rw [if_pos hpos]

theorem collapseWS_fixed (l : List Char) (hg : ∀ c ∈ l, goodChar c = true)
    (hch : l.Chain' spacedApart) : collapseWS l = l := by
  induction l with
  | nil => rfl
  | cons c t ih =>
    have hgt : ∀ x ∈ t, goodChar x = true := fun x hx => hg x (List.mem_cons_of_mem _ hx)
    have hrec : collapseWS t = t := ih hgt hch.tail
    show collapseStep c (collapseWS t) = c :: t
    rw [hrec]
    unfold collapseStep
    by_cases hs : isJsSpace c = true
    · have hc' : c = ' ' := space_of_goodChar_isJsSpace c (hg c (List.mem_cons_self _ _)) hs
      subst hc'
      rw [if_pos hs, if_neg]
      intro hh
      rcases t with _ | ⟨y, t'⟩
      · simp at hh
      · simp only [List.head?_cons, Option.some.injEq] at hh
        have hhead := (List.chain'_cons'.mp hch).1 y (by simp)
        exact hhead ⟨rfl, hh⟩
    · rw [if_neg hs]

theorem trimWS_fixed (l : List Char) (hg : ∀ c ∈ l, goodChar c = true)
    (hh : ∀ c, l.head? = some c → c ≠ ' ')
    (hl : ∀ c, l.getLast? = some c → c ≠ ' ') : trimWS l = l := by
  unfold trimWS
  have h1 : l.reverse.dropWhile isJsSpace = l.reverse := by
    apply dropWhile_noop
    intro c hc
    rw [List.head?_reverse] at hc
    exact not_isJsSpace_of_goodChar c (hg c (List.mem_of_mem_getLast? hc)) (hl c hc)
  rw [h1, List.reverse_reverse]
  apply dropWhile_noop
  intro c hc
  exact not_isJsSpace_of_goodChar c (hg c (List.mem_of_mem_head? hc)) (hh c hc)

theorem normalize_idem (s : String) : normalize (normalize s) = normalize s := by
  have hg := normalize_chars s
  have hmap1 : (normalize s).data.map jsLowerChar = (normalize s).data := by
    rw [List.map_congr_left (g := id) (fun a ha => jsLowerChar_fixed a (hg a ha))]
    exact List.map_id _
  have hmap2 : (normalize s).data.map keepChar = (normalize s).data := by
    rw [List.map_congr_left (g := id) (fun a ha => keepChar_fixed a (hg a ha))]
    exact List.map_id _
  show String.mk (trimWS (collapseWS (((normalize s).data.map jsLowerChar).map keepChar))) =
    normalize s
  rw [hmap1, hmap2, collapseWS_fixed _ hg (normalize_chain s),
    trimWS_fixed _ hg (normalize_head_ne_space s) (normalize_last_ne_space s)]

/-! ### Lemmas: the chain classifier -/

theorem hashScan_of_no_hash (l : List Char) :
    ∀ prev, '#' ∉ l → hashScan prev l = false := by
  induction l with
  | nil => intro prev _; rfl
  | cons c rest ih =>
    intro prev hmem
    have hc : c ≠ '#' := fun h => hmem (h ▸ List.mem_cons_self _ _)
    simp only [hashScan]
    rw [decide_eq_false hc]
    simp only [Bool.false_and, Bool.false_or]
    exact ih (some c) (fun h => hmem (List.mem_cons_of_mem _ h))

/-- The `#`-shaped heuristic of `isChainName` is tested against the
normalized name, which never contains `#`: the test can never succeed. -/
theorem hashNumMatch_normalize_false (s : String) :
    hashNumMatch (normalize s).data = false := by
  have hnot : '#' ∉ (normalize s).data := by
    intro hmem
    have := normalize_chars s '#' hmem
    exact absurd this (by decide)
  exact hashScan_of_no_hash _ none hnot

/-- On a brand-list hit, `isChainName` answers `true` exactly when the
holiday-without-corroboration override does not fire — regardless of which
brand matched. -/
theorem isChainName_of_brandHit (name : String)
    (h : brandHit (normalize name) = true) :
    isChainName name = !holidayNoCorroboration (normalize name) := by
  simp only [isChainName]
  rw [if_pos h]
  by_cases hb : holidayNoCorroboration (normalize name) = true
  · rw [if_pos hb, hb]; rfl
  · rw [if_neg hb]
    rw [Bool.not_eq_true] at hb
    rw [hb]; rfl

/-! ### Lemmas: the distance sort -/

theorem insertItem_perm (x : CoffeeItem) (l : List CoffeeItem) :
    (insertItem x l).Perm (x :: l) := by
  induction l with
  | nil => exact List.Perm.refl _
  | cons y r ih =>
    unfold insertItem
    by_cases h : sortKey x ≤ sortKey y
    · rw [if_pos h]
    · rw [if_neg h]
      exact (List.Perm.cons y ih).trans (List.Perm.swap x y r)

theorem sortItems_perm (l : List CoffeeItem) : (sortItems l).Perm l := by
  induction l with
  | nil => exact List.Perm.refl _
  | cons x t ih =>
    show (insertItem x (sortItems t)).Perm (x :: t)
    exact (insertItem_perm x (sortItems t)).trans (List.Perm.cons x ih)

theorem insertItem_pairwise (x : CoffeeItem) (l : List CoffeeItem)
    (h : l.Pairwise (fun a b => sortKey a ≤ sortKey b)) :
    (insertItem x l).Pairwise (fun a b => sortKey a ≤ sortKey b) := by
  induction l with
  | nil => simp [insertItem]
  | cons y r ih =>
    rcases List.pairwise_cons.mp h with ⟨hy, hr⟩
    unfold insertItem
    by_cases hxy : sortKey x ≤ sortKey y
    · rw [if_pos hxy, List.pairwise_cons]
      refine ⟨?_, h⟩
      intro b hb
      rcases List.mem_cons.mp hb with rfl | hb
      · exact hxy
      · exact le_trans hxy (hy b hb)
    · rw [if_neg hxy, List.pairwise_cons]
      refine ⟨?_, ih hr⟩
      intro b hb
      rcases List.mem_cons.mp ((insertItem_perm x r).mem_iff.mp hb) with rfl | hb'
      · exact le_of_not_le hxy
      · exact hy b hb'

theorem sortItems_pairwise (l : List CoffeeItem) :
    (sortItems l).Pairwise (fun a b => sortKey a ≤ sortKey b) := by
  induction l with
  | nil => exact List.Pairwise.nil
  | cons x t ih => exact insertItem_pairwise x (sortItems t) ih

theorem sortItems_absent_last (l : List CoffeeItem)
    (h : ∀ i ∈ l, i.distanceMeters.getD 0 < 9000000000000000) :
    (sortItems l).Pairwise
      (fun a b => a.distanceMeters = none → b.distanceMeters = none) := by
  refine (sortItems_pairwise l).imp_of_mem ?_
  intro a b ha hb hle hnone
  rcases hd : b.distanceMeters with _ | d
  · rfl
  · exfalso
    have hdb := h b ((sortItems_perm l).mem_iff.mp hb)
    rw [hd] at hdb
    unfold sortKey at hle
    rw [hnone, hd] at hle
    simp only [Option.getD_some, Option.getD_none] at hle hdb
    omega

theorem insertItem_filter (x : CoffeeItem) (l : List CoffeeItem) (k : ℤ) :
    (insertItem x l).filter (fun i => sortKey i == k) =
      if (sortKey x == k) = true then x :: l.filter (fun i => sortKey i == k)
      else l.filter (fun i => sortKey i == k) := by
  induction l with
  | nil =>
    rw [show insertItem x [] = [x] from rfl, List.filter_cons]
  | cons y r ih =>
    unfold insertItem
    by_cases hxy : sortKey x ≤ sortKey y
    · rw [if_pos hxy, List.filter_cons]
    · rw [if_neg hxy, List.filter_cons, List.filter_cons, ih]
      by_cases hy : (sortKey y == k) = true
      · by_cases hx : (sortKey x == k) = true
        · exfalso
          apply hxy
          rw [beq_iff_eq] at hx hy
          rw [hx, hy]
        · simp [hy, hx]
      · simp [hy]

theorem sortItems_filter (l : List CoffeeItem) (k : ℤ) :
    (sortItems l).filter (fun i => sortKey i == k) =
      l.filter (fun i => sortKey i == k) := by
  induction l with
  | nil => rfl
  | cons x t ih =>
    show (insertItem x (sortItems t)).filter _ = _
    rw [insertItem_filter, List.filter_cons]
    by_cases hx : (sortKey x == k) = true
    · rw [if_pos hx, if_pos hx, ih]
    · rw [if_neg hx, if_neg hx, ih]

/-! ### Lemmas: de-duplication -/

theorem dedupGo_mem (l : List PlaceResult) :
    ∀ seen, ∀ q ∈ dedupGo seen l, q.place_id ∉ seen ∧ q.place_id ≠ "" := by
  induction l with
  | nil => intro seen q hq; simp [dedupGo] at hq
  | cons p rest ih =>
    intro seen q hq
    unfold dedupGo at hq
    by_cases hp : p.place_id ≠ "" ∧ p.place_id ∉ seen
    · rw [if_pos hp] at hq
      rcases List.mem_cons.mp hq with rfl | hq'
      · exact ⟨hp.2, hp.1⟩
      · have hm := ih (p.place_id :: seen) q hq'
        exact ⟨fun hin => hm.1 (List.mem_cons_of_mem _ hin), hm.2⟩
    · rw [if_neg hp] at hq
      exact ih seen q hq

theorem dedupGo_nodup (l : List PlaceResult) :
    ∀ seen, ((dedupGo seen l).map (fun p => p.place_id)).Nodup := by
  induction l with
  | nil => intro seen; simp [dedupGo]
  | cons p rest ih =>
    intro seen
    unfold dedupGo
    by_cases hp : p.place_id ≠ "" ∧ p.place_id ∉ seen
    · rw [if_pos hp, List.map_cons, List.nodup_cons]
      refine ⟨?_, ih _⟩
      intro hmem
      rcases List.mem_map.mp hmem with ⟨q, hq, hqe⟩
      have hm := (dedupGo_mem rest (p.place_id :: seen) q hq).1
      rw [hqe] at hm
      exact hm (List.mem_cons_self _ _)
    · rw [if_neg hp]
      exact ih seen

theorem dedupGo_filter_of_seen (l : List PlaceResult) (pid : String) :
    ∀ seen, pid ∈ seen →
      (dedupGo seen l).filter (fun p => p.place_id == pid) = [] := by
  intro seen hs
  rw [List.filter_eq_nil_iff]
  intro q hq hcon
  rw [beq_iff_eq] at hcon
  apply (dedupGo_mem l seen q hq).1
  rw [hcon]
  exact hs

theorem dedupGo_filter (l : List PlaceResult) (pid : String) (hpid : pid ≠ "") :
    ∀ seen, pid ∉ seen →
      (dedupGo seen l).filter (fun p => p.place_id == pid) =
        (l.filter (fun p => p.place_id == pid)).take 1 := by
  induction l with
  | nil => intro seen _; rfl
  | cons p rest ih =>
    intro seen hseen
    unfold dedupGo
    by_cases hp : p.place_id ≠ "" ∧ p.place_id ∉ seen
    · rw [if_pos hp, List.filter_cons, List.filter_cons]
      by_cases he : (p.place_id == pid) = true
      · rw [if_pos he, if_pos he]
        rw [beq_iff_eq] at he
        rw [dedupGo_filter_of_seen rest pid _
          (by rw [he]; exact List.mem_cons_self _ _)]
        simp
      · rw [if_neg he, if_neg he]
        apply ih
        intro hmem
        rcases List.mem_cons.mp hmem with heq | hmem'
        · apply he
          rw [beq_iff_eq]
          exact heq.symm
        · exact hseen hmem'
    · rw [if_neg hp, List.filter_cons]
      have he : (p.place_id == pid) = false := by
        rw [beq_eq_false_iff_ne]
        intro heq
        apply hp
        rw [heq]
        exact ⟨hpid, hseen⟩
      rw [he, if_neg (by decide : ¬(false = true))]
      exact ih seen hseen

/-! ### Lemmas: the assembled pipeline -/

theorem mem_pipeline_name (lat lng : ℝ) (raw : List PlaceResult) (it : CoffeeItem)
    (hit : it ∈ (apiResult lat lng raw).2) :
    it.name ≠ "" ∧ isChainName it.name = false ∧ looksLikeCoffeePlace it.name = true := by
  have h1 : it ∈ pipelineItems lat lng raw :=
    List.mem_of_mem_take (show it ∈ (pipelineItems lat lng raw).take 60 from hit)
  have h2 : it ∈ (filterPlaces (dedupById raw)).map (toItem lat lng) :=
    (sortItems_perm _).mem_iff.mp h1
  rcases List.mem_map.mp h2 with ⟨p, hp, rfl⟩
  have hf := List.of_mem_filter hp
  simp only [Bool.and_eq_true, Bool.not_eq_true'] at hf
  refine ⟨?_, hf.1.2, hf.2⟩
  show p.name ≠ ""
  intro he
  rw [he] at hf
  exact absurd hf.1.1 (by decide)

theorem apiResult_cap (lat lng : ℝ) (raw : List PlaceResult) :
    (apiResult lat lng raw).2.length ≤ 60 ∧
    (apiResult lat lng raw).1 = (pipelineItems lat lng raw).length := by
  refine ⟨?_, rfl⟩
  show ((pipelineItems lat lng raw).take 60).length ≤ 60
  rw [List.length_take]
  exact min_le_left _ _

/-! ### Lemmas: the haversine distance -/

theorem haversineMeters_nonneg (lat1 lon1 lat2 lon2 : ℝ) :
    0 ≤ haversineMeters lat1 lon1 lat2 lon2 := by
  unfold haversineMeters
  dsimp only
  exact mul_nonneg (by norm_num) (Real.arcsin_nonneg.mpr (Real.sqrt_nonneg _))

theorem sin_sq_toRad_sub (x y : ℝ) :
    Real.sin (toRad (x - y) / 2) ^ 2 = Real.sin (toRad (y - x) / 2) ^ 2 := by
  have h : toRad (x - y) / 2 = -(toRad (y - x) / 2) := by unfold toRad; ring
  rw [h, Real.sin_neg]
  ring

theorem haversineMeters_symm (lat1 lon1 lat2 lon2 : ℝ) :
    haversineMeters lat1 lon1 lat2 lon2 = haversineMeters lat2 lon2 lat1 lon1 := by
  unfold haversineMeters
  dsimp only
  rw [sin_sq_toRad_sub lat2 lat1, sin_sq_toRad_sub lon2 lon1]
  ring_nf

theorem toRad_zero : toRad 0 = 0 := by unfold toRad; ring

theorem haversineMeters_self (lat lng : ℝ) : haversineMeters lat lng lat lng = 0 := by
  unfold haversineMeters
  dsimp only
  rw [sub_self, sub_self, toRad_zero]
  simp [Real.sin_zero, Real.sqrt_zero, Real.arcsin_zero]

/-! ### Lemmas: boundary validation -/

theorem handleParams_badRequest_iff (latStr lngStr : Option String) :
    (handleParams true latStr lngStr = GetOutcome.badRequest ↔
      (jsFalsy latStr = true ∨ jsFalsy lngStr = true ∨
       jsNumberFinite (latStr.getD "") = none ∨
       jsNumberFinite (lngStr.getD "") = none)) ∧
    (handleParams true latStr lngStr ≠ GetOutcome.badRequest →
      ∃ la lg, jsNumberFinite (latStr.getD "") = some la ∧
        jsNumberFinite (lngStr.getD "") = some lg ∧
        handleParams true latStr lngStr = GetOutcome.runSearch la lg) := by
  unfold handleParams
  rw [if_neg (by decide : ¬((!true : Bool) = true))]
  by_cases h1 : (jsFalsy latStr || jsFalsy lngStr) = true
  · rw [if_pos h1]
    simp only [Bool.or_eq_true] at h1
    constructor
    · constructor
      · intro _
        rcases h1 with h | h
        · exact Or.inl h
        · exact Or.inr (Or.inl h)
      · intro _
        rfl
    · intro hne
      exact absurd rfl hne
  · rw [if_neg h1]
    rw [Bool.or_eq_true] at h1
    push_neg at h1
    cases hA : jsNumberFinite (latStr.getD "") with
    | none => simp [h1.1, h1.2]
    | some qa =>
      cases hB : jsNumberFinite (lngStr.getD "") with
      | none => simp [h1.1, h1.2]
      | some qb =>
        refine ⟨by simp [h1.1, h1.2], ?_⟩
        intro _
        exact ⟨qa, qb, rfl, rfl, rfl⟩

set_option maxRecDepth 4096 in
/-- A decimal string whose exact value reaches the double range
(`1e309`) converts to `Infinity` in JS, not a finite number: the model
rejects it as non-finite. -/
theorem jsNumberFinite_overflow_boundary : jsNumberFinite "1e309" = none := by
  have h : jsNumberFinite "1e309" =
      (if overflowsDouble (((1 : ℕ) : ℚ) * 10 ^ (309 : ℕ)) then none
       else some (((1 : ℕ) : ℚ) * 10 ^ (309 : ℕ))) := rfl
  rw [h]
  have hov : overflowsDouble (((1 : ℕ) : ℚ) * 10 ^ (309 : ℕ)) = true := by
    unfold overflowsDouble
    have h1 : (((1 : ℕ) : ℚ) * 10 ^ (309 : ℕ)) = (10 : ℚ) ^ 309 := by norm_num
    rw [h1, decide_eq_true_eq, Rat.num_pow, Rat.den_pow]
    norm_num
  rw [hov]
  simp

set_option maxRecDepth 8192 in
/-- A numeral padded with a no-break space is accepted by JS `Number`
(NBSP is ECMAScript whitespace): the model converts it to the finite
value 5. -/
theorem jsNumberFinite_unicode_ws : jsNumberFinite "\u00A05" = some 5 := by decide

/-! ### Lemmas: the composite strategy model -/

theorem composite_tier_dominance (a b : CoffeeItem)
    (ha : a.distanceMeters = some 400) (har : a.rating = some 3)
    (hb : b.distanceMeters = some 600) (hbr : b.rating = some 5) :
    compositeAbove a b := by
  left
  rw [ha, hb]
  decide

/-! ## Claim theorems -/

/-- C1 (counterexample): the claim says that any brand-substring match
other than by the token "holiday" confirms chain status unconditionally.
"Starbucks Holiday" contains the listed brand "starbucks", yet
`isChainName` returns `false`: the holiday override also cancels matches
of other brands. -/
theorem C1_counterexample :
    "starbucks" ∈ KNOWN_CHAINS ∧
    strIncludes (normalize "Starbucks Holiday") (normalize "starbucks") = true ∧
    isChainName "Starbucks Holiday" = false :=
  ⟨by decide, by decide, by decide⟩

/-- C1 (amended): on any brand-list hit, `isChainName` returns `true`
exactly when the normalized name does not trip the
holiday-without-corroboration override — whichever brand matched — and the
claim's two examples hold: `isChain("Holiday Coffee House") = false`,
`isChain("Holiday Station Store #12") = true`. -/
theorem C1_amended_classifier :
    (∀ name : String, brandHit (normalize name) = true →
      isChainName name = !holidayNoCorroboration (normalize name)) ∧
    isChainName "Holiday Coffee House" = false ∧
    isChainName "Holiday Station Store #12" = true :=
  ⟨isChainName_of_brandHit, by decide, by decide⟩

/-- C1 (witness): the amended classifier rule evaluated on a concrete
brand-list hit. -/
theorem C1_witness :
    brandHit (normalize "Dunkin Donuts") = true ∧
    isChainName "Dunkin Donuts" = true := by
  refine ⟨by decide, ?_⟩
  rw [C1_amended_classifier.1 "Dunkin Donuts" (by decide)]
  decide

/-- C2: structural heuristic (a) — a `#` followed by two or more digits —
can never fire, because the regex is tested against the normalized name
and normalization replaces every `#` with a space: for every input string
the `#`-pattern test is `false`, and a name matching the claimed shape,
"Joes #34", is classified `false`.  Heuristic (b) and the claim's examples
behave as stated. -/
theorem C2_hash_heuristic_dead :
    (∀ s : String, hashNumMatch (normalize s).data = false) ∧
    isChainName "Joes #34" = false ∧
    isChainName "Joes Store #34" = true ∧
    isChainName "Joes Coffee" = false :=
  ⟨hashNumMatch_normalize_false, by decide, by decide, by decide⟩

/-- C3: under the composite strategy (modelled from the spec — the code
has no such strategy), a result at 400 m always ranks above a result at
600 m whatever their ratings: tier 0 beats tier 1 before quality scores
are compared. -/
theorem C3_composite_tier_dominance : ∀ a b : CoffeeItem,
    a.distanceMeters = some 400 → a.rating = some 3 →
    b.distanceMeters = some 600 → b.rating = some 5 →
    compositeAbove a b :=
  fun a b ha har hb hbr => composite_tier_dominance a b ha har hb hbr

/-- C3 (witness): two concrete items at 400 m / rating 3 and 600 m /
rating 5. -/
theorem C3_witness : compositeAbove c3Near c3Far :=
  C3_composite_tier_dominance c3Near c3Far rfl rfl rfl rfl

/-- C4 (counterexample): with 61 distinct surviving places the response
reports `returned = 61` while only 60 items are in the returned list —
the `returned` field is the pre-truncation count, not the number of items
actually returned. -/
theorem C4_counterexample :
    (apiResult 0 0 c4Raw61).1 = 61 ∧ (apiResult 0 0 c4Raw61).2.length = 60 :=
  ⟨by decide, by decide⟩

/-- C4 (amended): the item list is truncated to at most 60 entries after
ranking, and `returned` equals the number of ranked items before
truncation; the two agree whenever at most 60 items survive filtering. -/
theorem C4_amended_cap : ∀ (lat lng : ℝ) (raw : List PlaceResult),
    (apiResult lat lng raw).2.length ≤ 60 ∧
    (apiResult lat lng raw).1 = (pipelineItems lat lng raw).length ∧
    ((pipelineItems lat lng raw).length ≤ 60 →
      (apiResult lat lng raw).1 = (apiResult lat lng raw).2.length) := by
  intro lat lng raw
  obtain ⟨h1, h2⟩ := apiResult_cap lat lng raw
  refine ⟨h1, h2, ?_⟩
  intro hle
  rw [h2]
  show _ = ((pipelineItems lat lng raw).take 60).length
  rw [List.take_of_length_le hle]

/-- C4 (witness): on a one-element input the reported count equals the
number of returned items. -/
theorem C4_witness :
    (pipelineItems 0 0 c4RawSmall).length ≤ 60 ∧
    (apiResult 0 0 c4RawSmall).1 = (apiResult 0 0 c4RawSmall).2.length :=
  ⟨by decide, (C4_amended_cap 0 0 c4RawSmall).2.2 (by decide)⟩

/-- C5: for every input string, `normalize` yields only lowercase ASCII
letters, digits and single interior spaces, with no leading or trailing
space, and `normalize` is idempotent. -/
theorem C5_normalize_normal_form (s : String) :
    (∀ c ∈ (normalize s).data, isAsciiLower c = true ∨ isDigitC c = true ∨ c = ' ') ∧
    (normalize s).data.Chain' spacedApart ∧
    (∀ c, (normalize s).data.head? = some c → c ≠ ' ') ∧
    (∀ c, (normalize s).data.getLast? = some c → c ≠ ' ') ∧
    normalize (normalize s) = normalize s := by
  refine ⟨?_, normalize_chain s, normalize_head_ne_space s, normalize_last_ne_space s,
    normalize_idem s⟩
  intro c hc
  have h := normalize_chars s c hc
  simp only [goodChar, Bool.or_eq_true, beq_iff_eq] at h
  rcases h with (h | h) | h
  · exact Or.inl h
  · exact Or.inr (Or.inl h)
  · exact Or.inr (Or.inr h)

/-- C5 (witness): idempotence evaluated on a concrete messy input. -/
theorem C5_witness :
    normalize (normalize "  Mixed  CASE  42! ") = normalize "  Mixed  CASE  42! " :=
  (C5_normalize_normal_form "  Mixed  CASE  42! ").2.2.2.2

/-- C6: the distance-strategy sort returns a permutation of its input,
non-decreasing in the sort key (distance with the 9e15 sentinel for
absent), with every absent-distance entry after every present-distance
entry (given that real distances stay below the sentinel, as they do on
Earth), and it is stable: for each key value, the entries with that key
appear in their original input order. -/
theorem C6_distance_sort (l : List CoffeeItem)
    (h : ∀ i ∈ l, i.distanceMeters.getD 0 < 9000000000000000) :
    (sortItems l).Perm l ∧
    (sortItems l).Pairwise (fun a b => sortKey a ≤ sortKey b) ∧
    (sortItems l).Pairwise (fun a b => a.distanceMeters = none → b.distanceMeters = none) ∧
    (∀ k : ℤ, (sortItems l).filter (fun i => sortKey i == k) =
      l.filter (fun i => sortKey i == k)) :=
  ⟨sortItems_perm l, sortItems_pairwise l, sortItems_absent_last l h, sortItems_filter l⟩

/-- C6 (witness): the sort specification instantiated on a concrete
four-item list with a duplicate key and an absent distance. -/
theorem C6_witness :
    (∀ i ∈ c6Sample, i.distanceMeters.getD 0 < 9000000000000000) ∧
    ((sortItems c6Sample).Perm c6Sample ∧
     (sortItems c6Sample).Pairwise (fun a b => sortKey a ≤ sortKey b) ∧
     (sortItems c6Sample).Pairwise
       (fun a b => a.distanceMeters = none → b.distanceMeters = none) ∧
     (∀ k : ℤ, (sortItems c6Sample).filter (fun i => sortKey i == k) =
       c6Sample.filter (fun i => sortKey i == k))) :=
  ⟨by decide, C6_distance_sort c6Sample (by decide)⟩

/-- C7 (counterexample): the claim's "zero iff both points coincide"
fails for coordinate pairs: the poles collapse longitude, so
`haversineMeters 90 0 90 1 = 0` although `(90, 0) ≠ (90, 1)`. -/
theorem C7_counterexample :
    haversineMeters 90 0 90 1 = 0 ∧ ¬((90 : ℝ) = 90 ∧ (0 : ℝ) = 1) := by
  constructor
  · unfold haversineMeters
    dsimp only
    rw [sub_self]
    have h0 : toRad 0 = 0 := toRad_zero
    have h90 : toRad 90 = Real.pi / 2 := by unfold toRad; ring
    rw [h0, h90, Real.cos_pi_div_two]
    simp [Real.sin_zero, Real.sqrt_zero, Real.arcsin_zero]
  · intro h
    have := h.2
    norm_num at this

/-- C7 (amended): over the real-valued model, `haversineMeters` is total,
never negative, symmetric, and zero on coinciding coordinate pairs (the
converse direction of "zero iff coincide" is dropped: distinct coordinate
pairs at a pole also map to distance zero). -/
theorem C7_distance_properties (lat1 lon1 lat2 lon2 : ℝ) :
    0 ≤ haversineMeters lat1 lon1 lat2 lon2 ∧
    haversineMeters lat1 lon1 lat2 lon2 = haversineMeters lat2 lon2 lat1 lon1 ∧
    haversineMeters lat1 lon1 lat1 lon1 = 0 :=
  ⟨haversineMeters_nonneg lat1 lon1 lat2 lon2,
   haversineMeters_symm lat1 lon1 lat2 lon2,
   haversineMeters_self lat1 lon1⟩

/-- C8: the assembler never emits two results with the same place id, and
for any nonempty id the entries surviving deduplication are exactly the
first-encountered input entry with that id. -/
theorem C8_dedup (raw : List PlaceResult) (pid : String) (hpid : pid ≠ "") :
    ((dedupById raw).map (fun p => p.place_id)).Nodup ∧
    (dedupById raw).filter (fun p => p.place_id == pid) =
      (raw.filter (fun p => p.place_id == pid)).take 1 :=
  ⟨dedupGo_nodup raw [], dedupGo_filter raw pid hpid [] (by simp)⟩

/-- C8 (witness): two same-id entries with different content — exactly the
first survives. -/
theorem C8_witness :
    ("x" : String) ≠ "" ∧
    (((dedupById c8Sample).map (fun p => p.place_id)).Nodup ∧
     (dedupById c8Sample).filter (fun p => p.place_id == "x") =
       (c8Sample.filter (fun p => p.place_id == "x")).take 1) :=
  ⟨by decide, C8_dedup c8Sample "x" (by decide)⟩

set_option maxRecDepth 8192 in
/-- C9 (counterexample): `?lat=&lng=1` carries a present (non-missing)
`lat` parameter whose JS `Number` conversion is the finite value 0, yet
the handler rejects with 400: empty parameters are folded into
"missing" by the JS truthiness check. -/
theorem C9_counterexample :
    handleParams true (some "") (some "1") = GetOutcome.badRequest ∧
    (some "" : Option String) ≠ none ∧
    jsNumberFinite "" = some 0 ∧
    jsNumberFinite "1" = some 1 :=
  ⟨by decide, by decide, by decide, by decide⟩

/-- C9 (amended): with the API key configured and the rate limit passed,
the handler returns 400 iff `lat` or `lng` is missing **or empty** or does
not convert to a finite number; otherwise it proceeds to the search with
the two parsed finite coordinates. -/
theorem C9_validation (latStr lngStr : Option String) :
    (handleParams true latStr lngStr = GetOutcome.badRequest ↔
      (jsFalsy latStr = true ∨ jsFalsy lngStr = true ∨
       jsNumberFinite (latStr.getD "") = none ∨
       jsNumberFinite (lngStr.getD "") = none)) ∧
    (handleParams true latStr lngStr ≠ GetOutcome.badRequest →
      ∃ la lg, jsNumberFinite (latStr.getD "") = some la ∧
        jsNumberFinite (lngStr.getD "") = some lg ∧
        handleParams true latStr lngStr = GetOutcome.runSearch la lg) :=
  handleParams_badRequest_iff latStr lngStr

/-- C9 (witness): a non-numeric `lat` is rejected, via the amended
validation rule. -/
theorem C9_witness :
    handleParams true (some "x") (some "2") = GetOutcome.badRequest :=
  (C9_validation (some "x") (some "2")).1.mpr
    (Or.inr (Or.inr (Or.inl (by decide))))

/-- C10: every item the handler emits has a nonempty name that is not
classified as a chain and that looks like a coffee place — equivalently,
its normalized name contains at least one coffee-hint substring; the
relevance filter runs on every request. -/
theorem C10_output_invariant (lat lng : ℝ) (raw : List PlaceResult)
    (it : CoffeeItem) (hit : it ∈ (apiResult lat lng raw).2) :
    it.name ≠ "" ∧ isChainName it.name = false ∧
    looksLikeCoffeePlace it.name = true ∧
    COFFEE_HINTS.any (fun w => strIncludes (normalize it.name) (normalize w)) = true := by
  obtain ⟨h1, h2, h3⟩ := mem_pipeline_name lat lng raw it hit
  exact ⟨h1, h2, h3, h3⟩

/-- C10 (witness): the invariant evaluated on the single item produced
from a one-element raw input. -/
theorem C10_witness :
    c10Item.name ≠ "" ∧ isChainName c10Item.name = false ∧
    looksLikeCoffeePlace c10Item.name = true ∧
    COFFEE_HINTS.any (fun w => strIncludes (normalize c10Item.name) (normalize w)) = true :=
  C10_output_invariant 0 0 c10Raw c10Item (List.mem_cons_self _ _)

end Coffee
